import Mathlib

/-!
Shallow embedding of the Clebsch-Gordan combination kernels
(`rascaline/utils/clebsch_gordan/_dispatch.py`) and of the power-spectrum
orchestrator (`rascaline/utils/power_spectrum.py`).

Numpy arrays of rank 2/3/4/5 are embedded as structures carrying their
shape together with a total indexing function into the rationals `ℚ`
(the float entries are modelled exactly; "numerically equal up to
round-off" becomes exact equality of rationals).  Out-of-range indices
return unspecified junk; all theorems speak about in-range indices only.
Python exceptions (AssertionError, KeyError, broadcast ValueError,
TypeError) are modelled with `Except PyError`.
-/

/-- A rank-2 numpy array: shape `(n1, n2)` plus entries. -/
structure Arr2 where
  n1 : ℕ
  n2 : ℕ
  data : ℕ → ℕ → ℚ

/-- A rank-3 numpy array: shape `(n1, n2, n3)` plus entries. -/
structure Arr3 where
  n1 : ℕ
  n2 : ℕ
  n3 : ℕ
  data : ℕ → ℕ → ℕ → ℚ

/-- A rank-4 numpy array. -/
structure Arr4 where
  n1 : ℕ
  n2 : ℕ
  n3 : ℕ
  n4 : ℕ
  data : ℕ → ℕ → ℕ → ℕ → ℚ

/-- A rank-5 numpy array. -/
structure Arr5 where
  n1 : ℕ
  n2 : ℕ
  n3 : ℕ
  n4 : ℕ
  n5 : ℕ
  data : ℕ → ℕ → ℕ → ℕ → ℕ → ℚ

/-- Numpy broadcasting on one axis of length `n`: an index `s` into the
broadcast result reads position `0` of the original axis when that axis
has length 1, and position `s` otherwise. -/
def bidx (n s : ℕ) : ℕ := if n = 1 then 0 else s

theorem bidx_of_lt {n s : ℕ} (h : s < n) : bidx n s = s := by
  unfold bidx
  split
  · omega
  · rfl

/-- `np.zeros((a, b, c))`. -/
def zeros3 (a b c : ℕ) : Arr3 := ⟨a, b, c, fun _ _ _ => 0⟩

/-- `arr.swapaxes(1, 2)` on a rank-3 array. -/
def swapaxes12 (a : Arr3) : Arr3 :=
  ⟨a.n1, a.n3, a.n2, fun s i j => a.data s j i⟩

/-- The Python errors raised by the embedded code paths:
`assert` failure, missing dict key, numpy broadcast/shape failure, and
unknown array type.  The spec's taxonomy maps `ShapeMismatch` to
`assertionError`/`valueError` and `UnsupportedChannel` to `keyError`. -/
inductive PyError where
  | assertionError : PyError
  | keyError : PyError
  | valueError : PyError
  | typeError : PyError
deriving DecidableEq, Repr

/-- Sparse CG coefficient cache: `cg_cache.coeffs` is a dict from
`(l1, l2, lam)` to a dict from `(m1, m2, mu)` (0-based array indices)
to the coefficient; the inner dict is embedded as an association list in
insertion order.  Modelled from the spec (§3, §4.1): the cache
construction code itself is not part of the embedded sources, only its
consumers are. -/
structure SparseCGCache where
  coeffs : ℕ × ℕ × ℕ → Option (List ((ℕ × ℕ × ℕ) × ℚ))

/-- Dense CG coefficient cache: `cg_cache.coeffs` maps `(l1, l2, lam)` to
a dense array of shape `(2*l1+1, 2*l2+1, 2*lam+1)` indexed by
`(m1, m2, mu)`.  Modelled from the spec (§3, §4.1). -/
structure DenseCGCache where
  coeffs : ℕ × ℕ × ℕ → Option (ℕ → ℕ → ℕ → ℚ)

/-- One iteration of the `for m1, m2, mu in cg_coeffs.keys()` loop of
`_sparse_combine`:
`arr_out[:, mu, :] += (arr_1[:, m1, :, None] * arr_2[:, m2, None, :] * coeff).reshape(n_i, n_p * n_q)`.
The row-major reshape of the `(n_p, n_q)` outer product sends flat index
`p` to the pair `(p / n_q, p % n_q)`. -/
def sparseStep (n_q : ℕ) (arr_1 arr_2 : Arr3) (acc : Arr3)
    (e : (ℕ × ℕ × ℕ) × ℚ) : Arr3 :=
  { acc with
    data := fun s m p =>
      if m = e.1.2.2 then
        acc.data s m p +
          arr_1.data s e.1.1 (p / n_q) * arr_2.data s e.1.2.1 (p % n_q) * e.2
      else acc.data s m p }

/-- `_sparse_combine` (numpy branch body), `_dispatch.py` lines 44-73:
assert equal sample counts, allocate zeros, optionally return the empty
array, look up the sparse coefficients for the inferred `(l1, l2, lam)`,
and accumulate every nonzero `(m1, m2, mu)` entry. -/
def sparse_combine_np (arr_1 arr_2 : Arr3) (lam : ℕ)
    (cg_cache : SparseCGCache) (return_empty_array : Bool) :
    Except PyError Arr3 :=
  if arr_1.n1 = arr_2.n1 then
    let n_i := arr_1.n1
    let n_p := arr_1.n3
    let n_q := arr_2.n3
    let l1 := (arr_1.n2 - 1) / 2
    let l2 := (arr_2.n2 - 1) / 2
    let arr_out := zeros3 n_i (2 * lam + 1) (n_p * n_q)
    if return_empty_array then .ok arr_out
    else
      match cg_cache.coeffs (l1, l2, lam) with
      | none => .error .keyError
      | some cg_coeffs =>
          .ok (cg_coeffs.foldl (sparseStep n_q arr_1 arr_2) arr_out)
  else .error .assertionError

/-- `arr_1[:, None, None, :, :] * arr_2[:, :, :, None, None]` of
`_dense_combine`: result shape
`(broadcast samples, 2*l2+1, n_q, 2*l1+1, n_p)`; the sample axis
broadcasts when one operand has a single sample. -/
def densePairProduct (arr_1 arr_2 : Arr3) : Arr5 :=
  ⟨max arr_1.n1 arr_2.n1, arr_2.n2, arr_2.n3, arr_1.n2, arr_1.n3,
    fun s i j k l =>
      arr_1.data (bidx arr_1.n1 s) k l * arr_2.data (bidx arr_2.n1 s) i j⟩

/-- `arr.swapaxes(1, 4)` on a rank-5 array. -/
def swapaxes14 (a : Arr5) : Arr5 :=
  ⟨a.n1, a.n5, a.n3, a.n4, a.n2, fun s i j k l => a.data s l j k i⟩

/-- `arr.reshape(-1, n2*n3, n4*n5)` on a contiguous rank-5 array (the
row-major flattening groups axes 1-2 and axes 3-4). -/
def reshape5to3 (a : Arr5) : Arr3 :=
  ⟨a.n1, a.n2 * a.n3, a.n4 * a.n5,
    fun s p m => a.data s (p / a.n3) (p % a.n3) (m / a.n5) (m % a.n5)⟩

/-- Batched `arr @ mat` of a rank-3 array (contracted axis of length `k`)
with a `k × cols` matrix. -/
def matmul3M (a : Arr3) (mat : ℕ → ℕ → ℚ) (k cols : ℕ) : Arr3 :=
  ⟨a.n1, a.n2, cols,
    fun s p mu => ∑ m ∈ Finset.range k, a.data s p m * mat m mu⟩

/-- `_dense_combine` (numpy branch body), `_dispatch.py` lines 104-129:
look up the dense coefficients for the inferred `(l1, l2, lam)`, form the
broadcast outer product, swap axes 1 and 4, flatten to
`(samples, n_p*n_q, (2l1'+1)*(2l2'+1))`, reshape the coefficients to
`((2l1+1)*(2l2+1), 2*lam+1)`, batched-matmul, and swap the last two axes.
The sample axes must be numpy-broadcast-compatible and the contracted
lengths must agree, else numpy raises `ValueError`. -/
def dense_combine_np (arr_1 arr_2 : Arr3) (lam : ℕ)
    (cg_cache : DenseCGCache) : Except PyError Arr3 :=
  let l1 := (arr_1.n2 - 1) / 2
  let l2 := (arr_2.n2 - 1) / 2
  match cg_cache.coeffs (l1, l2, lam) with
  | none => .error .keyError
  | some cg_coeffs =>
      if arr_1.n1 = arr_2.n1 ∨ arr_1.n1 = 1 ∨ arr_2.n1 = 1 then
        let arr_out := reshape5to3 (swapaxes14 (densePairProduct arr_1 arr_2))
        if arr_out.n3 = (2 * l1 + 1) * (2 * l2 + 1) then
          .ok (swapaxes12 (matmul3M arr_out
            (fun m mu => cg_coeffs (m / (2 * l2 + 1)) (m % (2 * l2 + 1)) mu)
            ((2 * l1 + 1) * (2 * l2 + 1)) (2 * lam + 1)))
        else .error .valueError
      else .error .valueError

/-- The dynamic type of the first argument of the dispatch functions:
a numpy array, a torch tensor (opaque — the torch branch never reads it),
or anything else. -/
inductive ArrInput where
  | np : Arr3 → ArrInput
  | torch : ArrInput
  | other : ArrInput

/-- Full `_sparse_combine` with its `isinstance` dispatch: the numpy
branch computes, the torch branch is `pass` (the function returns
`None`), anything else raises `TypeError`. -/
def sparse_combine (arr_1 : ArrInput) (arr_2 : Arr3) (lam : ℕ)
    (cg_cache : SparseCGCache) (return_empty_array : Bool) :
    Except PyError (Option Arr3) :=
  match arr_1 with
  | .np a => (sparse_combine_np a arr_2 lam cg_cache return_empty_array).map some
  | .torch => .ok none
  | .other => .error .typeError

/-- Full `_dense_combine` with its `isinstance` dispatch. -/
def dense_combine (arr_1 : ArrInput) (arr_2 : Arr3) (lam : ℕ)
    (cg_cache : DenseCGCache) : Except PyError (Option Arr3) :=
  match arr_1 with
  | .np a => (dense_combine_np a arr_2 lam cg_cache).map some
  | .torch => .ok none
  | .other => .error .typeError

/-- Shape of a rank-3 array as a triple. -/
def shape3 (a : Arr3) : ℕ × ℕ × ℕ := (a.n1, a.n2, a.n3)

/-- The sparse accumulation loop never changes the shape allocated by
`np.zeros`. -/
theorem sparseFold_shape (n_q : ℕ) (arr_1 arr_2 : Arr3)
    (es : List ((ℕ × ℕ × ℕ) × ℚ)) (acc : Arr3) :
    shape3 (es.foldl (sparseStep n_q arr_1 arr_2) acc) = shape3 acc := by
  induction es generalizing acc with
  | nil => rfl
  | cons e tl ih =>
      rw [List.foldl_cons, ih]
      rfl

/-- C5: for valid inputs (`arr_1 : [n, 2*l1+1, n_p]`, `arr_2 :
[n, 2*l2+1, n_q]`, coefficients available for `(l1, l2, lam)`), both
`_sparse_combine` and `_dense_combine` return an array of shape
`[n, 2*lam+1, n_p * n_q]`. -/
theorem claim_C5_shape_contract
    (a1 a2 : Arr3) (l1 l2 lam : ℕ) (scache : SparseCGCache)
    (dcache : DenseCGCache) (es : List ((ℕ × ℕ × ℕ) × ℚ))
    (cg : ℕ → ℕ → ℕ → ℚ)
    (h1 : a1.n2 = 2 * l1 + 1) (h2 : a2.n2 = 2 * l2 + 1)
    (hn : a1.n1 = a2.n1)
    (hs : scache.coeffs (l1, l2, lam) = some es)
    (hd : dcache.coeffs (l1, l2, lam) = some cg) :
    (sparse_combine_np a1 a2 lam scache false).toOption.map shape3 =
        some (a1.n1, 2 * lam + 1, a1.n3 * a2.n3) ∧
    (dense_combine_np a1 a2 lam dcache).toOption.map shape3 =
        some (a1.n1, 2 * lam + 1, a1.n3 * a2.n3) := by
  have hl1 : (a1.n2 - 1) / 2 = l1 := by omega
  have hl2 : (a2.n2 - 1) / 2 = l2 := by omega
  constructor
  · unfold sparse_combine_np
    rw [if_pos hn]
    simp only [hl1, hl2, hs, Bool.false_eq_true, if_false, Except.toOption,
      Option.map_some, Option.map_some']
    rw [sparseFold_shape]
    rfl
  · have hbc : a1.n1 = a2.n1 ∨ a1.n1 = 1 ∨ a2.n1 = 1 := Or.inl hn
    have hk : (reshape5to3 (swapaxes14 (densePairProduct a1 a2))).n3 =
        (2 * l1 + 1) * (2 * l2 + 1) := by
      simp [reshape5to3, swapaxes14, densePairProduct, h1, h2]
    unfold dense_combine_np
    simp only [hl1, hl2, hd, if_pos hbc, if_pos hk, Except.toOption,
      Option.map_some]
    simp [shape3, swapaxes12, matmul3M, reshape5to3, swapaxes14,
      densePairProduct, hn]

/-- C5 witness: concrete arrays of shapes `[2,3,1]` and `[2,1,2]` with
`l1 = 1`, `l2 = 0`, `lam = 1`. -/
theorem claim_C5_shape_contract_witness :
    (sparse_combine_np ⟨2, 3, 1, fun _ _ _ => 1⟩ ⟨2, 1, 2, fun _ _ _ => 1⟩ 1
        ⟨fun _ => some []⟩ false).toOption.map shape3 = some (2, 3, 2) ∧
    (dense_combine_np ⟨2, 3, 1, fun _ _ _ => 1⟩ ⟨2, 1, 2, fun _ _ _ => 1⟩ 1
        ⟨fun _ => some (fun _ _ _ => 0)⟩).toOption.map shape3 =
        some (2, 3, 2) :=
  claim_C5_shape_contract ⟨2, 3, 1, fun _ _ _ => 1⟩ ⟨2, 1, 2, fun _ _ _ => 1⟩
    1 0 1 ⟨fun _ => some []⟩ ⟨fun _ => some (fun _ _ _ => 0)⟩ []
    (fun _ _ _ => 0) rfl rfl rfl rfl rfl

/-- C6 counterexample: with `arr_1.shape[0] = 1 ≠ 2 = arr_2.shape[0]`,
`_dense_combine` does not fail: numpy broadcasts the length-1 sample axis
and the call returns an array with 2 samples. -/
theorem claim_C6_counterexample :
    (dense_combine_np ⟨1, 1, 1, fun _ _ _ => 1⟩ ⟨2, 1, 1, fun _ _ _ => 1⟩ 0
        ⟨fun _ => some (fun _ _ _ => 1)⟩).toOption.map shape3 =
      some (2, 1, 1) := rfl

/-- C6 (amended): `_sparse_combine` fails on any sample-count mismatch
(`assert`, the spec's `ShapeMismatch`); `_dense_combine` fails with a
numpy broadcast `ValueError` when the sample counts differ and neither is
1, but when one of them is 1 it silently broadcasts and returns an output
whose sample count is the larger of the two. -/
theorem claim_C6_amended :
    (∀ (a1 a2 : Arr3) (lam : ℕ) (scache : SparseCGCache) (flag : Bool),
        a1.n1 ≠ a2.n1 →
        sparse_combine_np a1 a2 lam scache flag = .error .assertionError) ∧
    (∀ (a1 a2 : Arr3) (lam : ℕ) (dcache : DenseCGCache)
        (cg : ℕ → ℕ → ℕ → ℚ),
        dcache.coeffs ((a1.n2 - 1) / 2, (a2.n2 - 1) / 2, lam) = some cg →
        a1.n1 ≠ a2.n1 → a1.n1 ≠ 1 → a2.n1 ≠ 1 →
        dense_combine_np a1 a2 lam dcache = .error .valueError) ∧
    (∀ (a1 a2 : Arr3) (l1 l2 lam : ℕ) (dcache : DenseCGCache)
        (cg : ℕ → ℕ → ℕ → ℚ),
        dcache.coeffs (l1, l2, lam) = some cg →
        a1.n2 = 2 * l1 + 1 → a2.n2 = 2 * l2 + 1 →
        (a1.n1 = 1 ∨ a2.n1 = 1) →
        (dense_combine_np a1 a2 lam dcache).toOption.map shape3 =
          some (max a1.n1 a2.n1, 2 * lam + 1, a1.n3 * a2.n3)) := by
  refine ⟨?_, ?_, ?_⟩
  · intro a1 a2 lam scache flag hne
    unfold sparse_combine_np
    rw [if_neg hne]
  · intro a1 a2 lam dcache cg hd hne h1 h2
    have hbc : ¬(a1.n1 = a2.n1 ∨ a1.n1 = 1 ∨ a2.n1 = 1) := by tauto
    unfold dense_combine_np
    simp only [hd, if_neg hbc]
  · intro a1 a2 l1 l2 lam dcache cg hd h1 h2 hb
    have hl1 : (a1.n2 - 1) / 2 = l1 := by omega
    have hl2 : (a2.n2 - 1) / 2 = l2 := by omega
    have hbc : a1.n1 = a2.n1 ∨ a1.n1 = 1 ∨ a2.n1 = 1 := by tauto
    have hk : (reshape5to3 (swapaxes14 (densePairProduct a1 a2))).n3 =
        (2 * l1 + 1) * (2 * l2 + 1) := by
      simp [reshape5to3, swapaxes14, densePairProduct, h1, h2]
    unfold dense_combine_np
    simp only [hl1, hl2, hd, if_pos hbc, if_pos hk, Except.toOption,
      Option.map_some, Option.map_some']
    simp [shape3, swapaxes12, matmul3M, reshape5to3, swapaxes14,
      densePairProduct]

/-- C6 witness: the amended behaviors at concrete inputs — a `[3,1,1]` /
`[2,1,1]` pair for both failure modes and a `[1,1,1]` / `[2,1,1]` pair
for the silent broadcast. -/
theorem claim_C6_amended_witness :
    sparse_combine_np ⟨3, 1, 1, fun _ _ _ => 1⟩ ⟨2, 1, 1, fun _ _ _ => 1⟩ 0
        ⟨fun _ => some []⟩ false = .error .assertionError ∧
    dense_combine_np ⟨3, 1, 1, fun _ _ _ => 1⟩ ⟨2, 1, 1, fun _ _ _ => 1⟩ 0
        ⟨fun _ => some (fun _ _ _ => 1)⟩ = .error .valueError ∧
    (dense_combine_np ⟨1, 1, 1, fun _ _ _ => 1⟩ ⟨2, 1, 1, fun _ _ _ => 1⟩ 0
        ⟨fun _ => some (fun _ _ _ => 1)⟩).toOption.map shape3 =
      some (2, 1, 1) :=
  ⟨claim_C6_amended.1 ⟨3, 1, 1, fun _ _ _ => 1⟩ ⟨2, 1, 1, fun _ _ _ => 1⟩ 0
      ⟨fun _ => some []⟩ false (by decide),
    claim_C6_amended.2.1 ⟨3, 1, 1, fun _ _ _ => 1⟩ ⟨2, 1, 1, fun _ _ _ => 1⟩
      0 ⟨fun _ => some (fun _ _ _ => 1)⟩ (fun _ _ _ => 1) rfl (by decide)
      (by decide) (by decide),
    claim_C6_amended.2.2 ⟨1, 1, 1, fun _ _ _ => 1⟩ ⟨2, 1, 1, fun _ _ _ => 1⟩
      0 0 0 ⟨fun _ => some (fun _ _ _ => 1)⟩ (fun _ _ _ => 1) rfl rfl rfl
      (Or.inl rfl)⟩

/-- C7: when the coefficient source lacks the inferred `(l1, l2, lam)`
triple, `_sparse_combine` (with `return_empty_array = False`, after its
sample-count assert) and `_dense_combine` both fail with the dict
`KeyError` (the spec's `UnsupportedChannel`). -/
theorem claim_C7_unsupported_channel :
    (∀ (a1 a2 : Arr3) (lam : ℕ) (scache : SparseCGCache),
        a1.n1 = a2.n1 →
        scache.coeffs ((a1.n2 - 1) / 2, (a2.n2 - 1) / 2, lam) = none →
        sparse_combine_np a1 a2 lam scache false = .error .keyError) ∧
    (∀ (a1 a2 : Arr3) (lam : ℕ) (dcache : DenseCGCache),
        dcache.coeffs ((a1.n2 - 1) / 2, (a2.n2 - 1) / 2, lam) = none →
        dense_combine_np a1 a2 lam dcache = .error .keyError) := by
  constructor
  · intro a1 a2 lam scache hn hmiss
    unfold sparse_combine_np
    rw [if_pos hn]
    simp only [hmiss, Bool.false_eq_true, if_false]
  · intro a1 a2 lam dcache hmiss
    unfold dense_combine_np
    simp only [hmiss]

/-- C7 witness: empty caches at a concrete `[1,1,1]` / `[1,1,1]` input
pair. -/
theorem claim_C7_unsupported_channel_witness :
    sparse_combine_np ⟨1, 1, 1, fun _ _ _ => 1⟩ ⟨1, 1, 1, fun _ _ _ => 1⟩ 0
        ⟨fun _ => none⟩ false = .error .keyError ∧
    dense_combine_np ⟨1, 1, 1, fun _ _ _ => 1⟩ ⟨1, 1, 1, fun _ _ _ => 1⟩ 0
        ⟨fun _ => none⟩ = .error .keyError :=
  ⟨claim_C7_unsupported_channel.1 ⟨1, 1, 1, fun _ _ _ => 1⟩
      ⟨1, 1, 1, fun _ _ _ => 1⟩ 0 ⟨fun _ => none⟩ rfl rfl,
    claim_C7_unsupported_channel.2 ⟨1, 1, 1, fun _ _ _ => 1⟩
      ⟨1, 1, 1, fun _ _ _ => 1⟩ 0 ⟨fun _ => none⟩ rfl⟩

/-- C10: when `arr_1` is a torch tensor, both `_sparse_combine` and
`_dense_combine` hit the `pass` branch and silently return `None` —
no result and no error. -/
theorem claim_C10_torch_branch_noop (arr_2 : Arr3) (lam : ℕ)
    (scache : SparseCGCache) (dcache : DenseCGCache) (flag : Bool) :
    sparse_combine .torch arr_2 lam scache flag = .ok none ∧
    dense_combine .torch arr_2 lam dcache = .ok none :=
  ⟨rfl, rfl⟩

/-- Entry formula of the sparse accumulation loop: starting from `acc`,
the loop adds one term per coefficient entry whose `mu` equals the output
component index. -/
theorem sparseFold_data (n_q : ℕ) (a1 a2 : Arr3)
    (es : List ((ℕ × ℕ × ℕ) × ℚ)) (acc : Arr3) (s m p : ℕ) :
    (es.foldl (sparseStep n_q a1 a2) acc).data s m p =
      acc.data s m p +
        (es.map (fun e =>
          if m = e.1.2.2 then
            a1.data s e.1.1 (p / n_q) * a2.data s e.1.2.1 (p % n_q) * e.2
          else 0)).sum := by
  induction es generalizing acc with
  | nil => simp
  | cons e tl ih =>
      rw [List.foldl_cons, ih, List.map_cons, List.sum_cons]
      by_cases hm : m = e.1.2.2
      · simp only [sparseStep, if_pos hm]
        ring
      · simp only [sparseStep, if_neg hm]
        ring

/-- Splitting a sum over `range (a * b)` along the row-major pairing
`M = b * i + j`. -/
theorem sum_range_mul (a b : ℕ) (f : ℕ → ℚ) :
    ∑ M ∈ Finset.range (a * b), f M =
      ∑ i ∈ Finset.range a, ∑ j ∈ Finset.range b, f (b * i + j) := by
  induction a with
  | zero => simp
  | succ n ih =>
      have hsplit : ∀ (m k : ℕ),
          ∑ M ∈ Finset.range (m + k), f M =
            (∑ M ∈ Finset.range m, f M) + ∑ j ∈ Finset.range k, f (m + j) := by
        intro m k
        induction k with
        | zero => simp
        | succ k ihk =>
            rw [← Nat.add_assoc, Finset.sum_range_succ, ihk,
              Finset.sum_range_succ, add_assoc]
      rw [Nat.succ_mul, hsplit, ih, Finset.sum_range_succ]
      congr 1
      refine Finset.sum_congr rfl fun j _ => ?_
      rw [Nat.mul_comm b n]

/-- Summing the indicator of one key over an association list whose key
is absent gives 0. -/
theorem ifsum_of_not_mem (es : List ((ℕ × ℕ × ℕ) × ℚ)) (k : ℕ × ℕ × ℕ)
    (hk : k ∉ es.map Prod.fst) :
    (es.map (fun x => if x.1 = k then x.2 else 0)).sum = 0 := by
  induction es with
  | nil => rfl
  | cons e tl ih =>
      simp only [List.map_cons, List.mem_cons, not_or] at hk
      simp only [List.map_cons, List.sum_cons]
      rw [if_neg (fun h => hk.1 h.symm), ih hk.2, add_zero]

/-- Summing the indicator of a present key over a duplicate-free
association list picks out its value. -/
theorem ifsum_of_mem (es : List ((ℕ × ℕ × ℕ) × ℚ)) (e : (ℕ × ℕ × ℕ) × ℚ)
    (hnd : (es.map Prod.fst).Nodup) (he : e ∈ es) :
    (es.map (fun x => if x.1 = e.1 then x.2 else 0)).sum = e.2 := by
  induction es with
  | nil => cases he
  | cons a tl ih =>
      rw [List.map_cons, List.nodup_cons] at hnd
      simp only [List.map_cons, List.sum_cons]
      rcases List.mem_cons.mp he with rfl | htl
      · rw [if_pos rfl, ifsum_of_not_mem tl e.1 hnd.1, add_zero]
      · have ha : a.1 ≠ e.1 := by
          intro h
          exact hnd.1 (h ▸ List.mem_map_of_mem Prod.fst htl)
        rw [if_neg ha, ih hnd.2 htl, zero_add]

/-- A finite sum of list sums equals the list sum of finite sums. -/
theorem finsum_listsum_swap {β : Type} (s : Finset β)
    (es : List ((ℕ × ℕ × ℕ) × ℚ)) (g : β → (ℕ × ℕ × ℕ) × ℚ → ℚ) :
    ∑ x ∈ s, (es.map (g x)).sum = (es.map (fun e => ∑ x ∈ s, g x e)).sum := by
  induction es with
  | nil => simp
  | cons e tl ih =>
      simp only [List.map_cons, List.sum_cons, Finset.sum_add_distrib, ih]

/-- Evaluating the double indicator sum of one sparse key over the full
`(m1, m2)` grid. -/
theorem indicator_pair_sum (A B : ℕ) (k : ℕ × ℕ × ℕ) (mu : ℕ)
    (hA : k.1 < A) (hB : k.2.1 < B) (f : ℕ → ℕ → ℚ) :
    (∑ m1 ∈ Finset.range A, ∑ m2 ∈ Finset.range B,
        if k = (m1, m2, mu) then f m1 m2 else 0) =
      if mu = k.2.2 then f k.1 k.2.1 else 0 := by
  rw [Finset.sum_eq_single k.1]
  · rw [Finset.sum_eq_single k.2.1]
    · by_cases hc : mu = k.2.2
      · rw [if_pos hc, if_pos]
        obtain ⟨k1, k2, k3⟩ := k
        simp only at hc ⊢
        rw [hc]
      · rw [if_neg hc, if_neg]
        intro h
        exact hc (by rw [h])
    · intro m2 _ hne
      rw [if_neg]
      intro h
      exact hne (by rw [h])
    · intro habs
      exact absurd (Finset.mem_range.mpr hB) habs
  · intro m1 _ hne
    refine Finset.sum_eq_zero fun m2 _ => ?_
    rw [if_neg]
    intro h
    exact hne (by rw [h])
  · intro habs
    exact absurd (Finset.mem_range.mpr hA) habs

/-- The bridge between the dense double sum over the full `(m1, m2)` grid
and the sparse accumulation over the nonzero coefficient entries, under
the spec's coefficient-table consistency invariant (§8): the dense matrix
agrees with every sparse entry, and vanishes exactly off the sparse
support. -/
theorem double_sum_eq_sparse_sum (l1 l2 lam mu : ℕ)
    (es : List ((ℕ × ℕ × ℕ) × ℚ)) (cg : ℕ → ℕ → ℕ → ℚ) (X Y : ℕ → ℚ)
    (hmu : mu < 2 * lam + 1)
    (hkeys : (es.map Prod.fst).Nodup)
    (hrange : ∀ e ∈ es, e.1.1 < 2 * l1 + 1 ∧ e.1.2.1 < 2 * l2 + 1 ∧
        e.1.2.2 < 2 * lam + 1)
    (hval : ∀ e ∈ es, cg e.1.1 e.1.2.1 e.1.2.2 = e.2)
    (hzero : ∀ m1 m2 m3, m1 < 2 * l1 + 1 → m2 < 2 * l2 + 1 →
        m3 < 2 * lam + 1 → (m1, m2, m3) ∉ es.map Prod.fst →
        cg m1 m2 m3 = 0) :
    (∑ m1 ∈ Finset.range (2 * l1 + 1), ∑ m2 ∈ Finset.range (2 * l2 + 1),
        X m1 * Y m2 * cg m1 m2 mu) =
      (es.map (fun e =>
        if mu = e.1.2.2 then X e.1.1 * Y e.1.2.1 * e.2 else 0)).sum := by
  have hlook : ∀ m1 m2, m1 < 2 * l1 + 1 → m2 < 2 * l2 + 1 →
      cg m1 m2 mu =
        (es.map (fun x => if x.1 = (m1, m2, mu) then x.2 else 0)).sum := by
    intro m1 m2 hm1 hm2
    by_cases hmem : (m1, m2, mu) ∈ es.map Prod.fst
    · obtain ⟨e, he, hfst⟩ := List.mem_map.mp hmem
      have h1 : e.1.1 = m1 := by rw [hfst]
      have h2 : e.1.2.1 = m2 := by rw [hfst]
      have h3 : e.1.2.2 = mu := by rw [hfst]
      rw [← h1, ← h2, ← h3, hval e he]
      have heta : (e.1.1, e.1.2.1, e.1.2.2) = e.1 := rfl
      rw [heta]
      exact (ifsum_of_mem es e hkeys he).symm
    · rw [hzero m1 m2 mu hm1 hm2 hmu hmem, ifsum_of_not_mem es _ hmem]
  calc
    (∑ m1 ∈ Finset.range (2 * l1 + 1), ∑ m2 ∈ Finset.range (2 * l2 + 1),
        X m1 * Y m2 * cg m1 m2 mu) =
        ∑ m1 ∈ Finset.range (2 * l1 + 1), ∑ m2 ∈ Finset.range (2 * l2 + 1),
          (es.map (fun e =>
            if e.1 = (m1, m2, mu) then X m1 * Y m2 * e.2 else 0)).sum := by
      refine Finset.sum_congr rfl fun m1 hm1 => ?_
      refine Finset.sum_congr rfl fun m2 hm2 => ?_
      rw [hlook m1 m2 (Finset.mem_range.mp hm1) (Finset.mem_range.mp hm2),
        ← List.sum_map_mul_left]
      refine congrArg List.sum (List.map_congr_left fun e _ => ?_)
      rw [mul_ite, mul_zero]
    _ = (es.map (fun e => ∑ m1 ∈ Finset.range (2 * l1 + 1),
          ∑ m2 ∈ Finset.range (2 * l2 + 1),
            if e.1 = (m1, m2, mu) then X m1 * Y m2 * e.2 else 0)).sum := by
      rw [← finsum_listsum_swap]
      refine Finset.sum_congr rfl fun m1 _ => ?_
      rw [← finsum_listsum_swap]
    _ = (es.map (fun e =>
          if mu = e.1.2.2 then X e.1.1 * Y e.1.2.1 * e.2 else 0)).sum := by
      refine congrArg List.sum (List.map_congr_left fun e he => ?_)
      obtain ⟨he1, he2, _⟩ := hrange e he
      rw [indicator_pair_sum (2 * l1 + 1) (2 * l2 + 1) e.1 mu he1 he2
        (fun m1 m2 => X m1 * Y m2 * e.2)]

/-- Entry formula of the dense strategy: the chain
broadcast-product / swapaxes / reshape / matmul / swapaxes evaluates, at
in-range samples, to the double sum over the full `(m1, m2)` grid
weighted by the dense coefficient matrix. -/
theorem dense_entry (a1 a2 : Arr3) (l1 l2 lam : ℕ) (cg : ℕ → ℕ → ℕ → ℚ)
    (h2 : a2.n2 = 2 * l2 + 1) (s mu P : ℕ)
    (hs1 : s < a1.n1) (hs2 : s < a2.n1) :
    (swapaxes12 (matmul3M (reshape5to3 (swapaxes14 (densePairProduct a1 a2)))
        (fun m mu' => cg (m / (2 * l2 + 1)) (m % (2 * l2 + 1)) mu')
        ((2 * l1 + 1) * (2 * l2 + 1)) (2 * lam + 1))).data s mu P =
      ∑ m1 ∈ Finset.range (2 * l1 + 1), ∑ m2 ∈ Finset.range (2 * l2 + 1),
        a1.data s m1 (P / a2.n3) * a2.data s m2 (P % a2.n3) *
          cg m1 m2 mu := by
  simp only [swapaxes12, matmul3M, reshape5to3, swapaxes14, densePairProduct,
    bidx_of_lt hs1, bidx_of_lt hs2, h2]
  rw [sum_range_mul]
  refine Finset.sum_congr rfl fun m1 hm1 => ?_
  refine Finset.sum_congr rfl fun m2 hm2 => ?_
  have hm2' := Finset.mem_range.mp hm2
  rw [Nat.mul_add_div (by omega) m1 m2, Nat.mul_add_mod,
    Nat.div_eq_of_lt hm2', Nat.mod_eq_of_lt hm2', Nat.add_zero]

/-- C1: under the spec's coefficient consistency invariant (§8, the
dense matrix agrees with the sparse mapping on its support and is zero
off it), `_sparse_combine` and `_dense_combine` succeed on the same valid
inputs and return arrays that are equal in shape and in every in-range
entry. -/
theorem claim_C1_sparse_dense_equivalence
    (a1 a2 : Arr3) (l1 l2 lam : ℕ) (scache : SparseCGCache)
    (dcache : DenseCGCache) (es : List ((ℕ × ℕ × ℕ) × ℚ))
    (cg : ℕ → ℕ → ℕ → ℚ)
    (h1 : a1.n2 = 2 * l1 + 1) (h2 : a2.n2 = 2 * l2 + 1)
    (hn : a1.n1 = a2.n1)
    (hs : scache.coeffs (l1, l2, lam) = some es)
    (hd : dcache.coeffs (l1, l2, lam) = some cg)
    (hkeys : (es.map Prod.fst).Nodup)
    (hrange : ∀ e ∈ es, e.1.1 < 2 * l1 + 1 ∧ e.1.2.1 < 2 * l2 + 1 ∧
        e.1.2.2 < 2 * lam + 1)
    (hval : ∀ e ∈ es, cg e.1.1 e.1.2.1 e.1.2.2 = e.2)
    (hzero : ∀ m1 m2 m3, m1 < 2 * l1 + 1 → m2 < 2 * l2 + 1 →
        m3 < 2 * lam + 1 → (m1, m2, m3) ∉ es.map Prod.fst →
        cg m1 m2 m3 = 0) :
    ∃ o1 o2 : Arr3,
      sparse_combine_np a1 a2 lam scache false = .ok o1 ∧
      dense_combine_np a1 a2 lam dcache = .ok o2 ∧
      shape3 o1 = shape3 o2 ∧
      ∀ s mu P, s < a1.n1 → mu < 2 * lam + 1 → P < a1.n3 * a2.n3 →
        o1.data s mu P = o2.data s mu P := by
  have hl1 : (a1.n2 - 1) / 2 = l1 := by omega
  have hl2 : (a2.n2 - 1) / 2 = l2 := by omega
  have hbc : a1.n1 = a2.n1 ∨ a1.n1 = 1 ∨ a2.n1 = 1 := Or.inl hn
  have hk : (reshape5to3 (swapaxes14 (densePairProduct a1 a2))).n3 =
      (2 * l1 + 1) * (2 * l2 + 1) := by
    simp [reshape5to3, swapaxes14, densePairProduct, h1, h2]
  refine ⟨es.foldl (sparseStep a2.n3 a1 a2)
      (zeros3 a1.n1 (2 * lam + 1) (a1.n3 * a2.n3)),
    swapaxes12 (matmul3M (reshape5to3 (swapaxes14 (densePairProduct a1 a2)))
      (fun m mu' => cg (m / (2 * l2 + 1)) (m % (2 * l2 + 1)) mu')
      ((2 * l1 + 1) * (2 * l2 + 1)) (2 * lam + 1)), ?_, ?_, ?_, ?_⟩
  · unfold sparse_combine_np
    rw [if_pos hn]
    simp only [hl1, hl2, hs, Bool.false_eq_true, if_false]
  · unfold dense_combine_np
    simp only [hl1, hl2, hd, if_pos hbc, if_pos hk]
  · rw [sparseFold_shape]
    simp [shape3, zeros3, swapaxes12, matmul3M, reshape5to3, swapaxes14,
      densePairProduct, hn]
  · intro s mu P hsn hmu _hP
    rw [sparseFold_data]
    have h0 : (zeros3 a1.n1 (2 * lam + 1) (a1.n3 * a2.n3)).data s mu P = 0 :=
      rfl
    rw [h0, zero_add,
      dense_entry a1 a2 l1 l2 lam cg h2 s mu P hsn (hn ▸ hsn),
      double_sum_eq_sparse_sum l1 l2 lam mu es cg
        (fun m => a1.data s m (P / a2.n3)) (fun m => a2.data s m (P % a2.n3))
        hmu hkeys hrange hval hzero]

/-- Concrete sparse coefficient table for the `(0, 0, 0)` channel used by
the C1 witness. -/
def esW : List ((ℕ × ℕ × ℕ) × ℚ) := [((0, 0, 0), 2)]

/-- Concrete dense coefficient table matching `esW`. -/
def cgW : ℕ → ℕ → ℕ → ℚ :=
  fun m1 m2 mu => if m1 = 0 ∧ m2 = 0 ∧ mu = 0 then 2 else 0

/-- Concrete first input array (one sample, `l1 = 0`, one property). -/
def a1W : Arr3 := ⟨1, 1, 1, fun _ _ _ => 3⟩

/-- Concrete second input array (one sample, `l2 = 0`, two properties). -/
def a2W : Arr3 := ⟨1, 1, 2, fun _ _ p => if p = 0 then 5 else 7⟩

/-- Concrete sparse cache holding only the `(0, 0, 0)` entry. -/
def scacheW : SparseCGCache := ⟨fun k => if k = (0, 0, 0) then some esW else none⟩

/-- Concrete dense cache holding only the `(0, 0, 0)` entry. -/
def dcacheW : DenseCGCache := ⟨fun k => if k = (0, 0, 0) then some cgW else none⟩

/-- C1 witness: the equivalence theorem applied to the concrete
`(l1, l2, lam) = (0, 0, 0)` instance above. -/
theorem claim_C1_sparse_dense_equivalence_witness :
    ((esW.map Prod.fst).Nodup ∧
      (∀ e ∈ esW, cgW e.1.1 e.1.2.1 e.1.2.2 = e.2)) ∧
    ∃ o1 o2 : Arr3,
      sparse_combine_np a1W a2W 0 scacheW false = .ok o1 ∧
      dense_combine_np a1W a2W 0 dcacheW = .ok o2 ∧
      shape3 o1 = shape3 o2 ∧
      ∀ s mu P, s < a1W.n1 → mu < 2 * 0 + 1 → P < a1W.n3 * a2W.n3 →
        o1.data s mu P = o2.data s mu P :=
  ⟨⟨by decide, by decide⟩,
    claim_C1_sparse_dense_equivalence a1W a2W 0 0 0 scacheW dcacheW esW cgW
      rfl rfl rfl rfl rfl (by decide) (by decide) (by decide)
      (by
        intro m1 m2 m3 hm1 hm2 hm3 hmem
        have e1 : m1 = 0 := by omega
        have e2 : m2 = 0 := by omega
        have e3 : m3 = 0 := by omega
        subst e1
        subst e2
        subst e3
        exact absurd (by decide) hmem)⟩

/-- A calculator as seen by `PowerSpectrum.__init__`: its registered
`c_name` and the `max_angular` field of its JSON parameters. -/
structure CalcInfo where
  c_name : String
  max_angular : ℤ

/-- The three `ValueError` raise sites of `PowerSpectrum.__init__`. -/
inductive InitError where
  | unsupportedCalculator1 : InitError
  | unsupportedCalculator2 : InitError
  | maxAngularMismatch : InitError
deriving DecidableEq, Repr

/-- The calculator names accepted by `PowerSpectrum.__init__`. -/
def supported_calculators : List String :=
  ["lode_spherical_expansion", "spherical_expansion"]

/-- `PowerSpectrum.__init__` validation, `power_spectrum.py` lines
122-143: check both calculator names, then(for two calculators) compare
the `max_angular` parameters. -/
def powerSpectrum_init (calculator_1 : CalcInfo)
    (calculator_2 : Option CalcInfo) : Except InitError Unit :=
  if calculator_1.c_name ∈ supported_calculators then
    match calculator_2 with
    | none => .ok ()
    | some c2 =>
        if c2.c_name ∈ supported_calculators then
          if calculator_1.max_angular ≠ c2.max_angular then
            .error .maxAngularMismatch
          else .ok ()
        else .error .unsupportedCalculator2
  else .error .unsupportedCalculator1

/-- A labeled block of a spherical expansion after the
`keys_to_properties` merge: sample labels, property labels and a values
array of shape `(n_samples, 2*l+1, n_properties)`. -/
structure TBlock where
  samples : List (List ℤ)
  properties : List (List ℤ)
  values : Arr3

/-- The output property labels of one matched block pair,
`power_spectrum.py` lines 234-244: the row-major Cartesian product
`[p1 + p2 for p1 in block_1.properties for p2 in block_2.properties]`. -/
def psPairProperties (props_1 props_2 : List (List ℤ)) : List (List ℤ) :=
  props_1.flatMap (fun p1 => props_2.map (fun p2 => p1 ++ p2))

/-- Batched `np.matmul` of two rank-3 arrays (contraction over the last
axis of the first with the middle axis of the second). -/
def matmulB (a b : Arr3) : Arr3 :=
  ⟨a.n1, a.n2, b.n3,
    fun s i j => ∑ k ∈ Finset.range a.n3, a.data s i k * b.data s k j⟩

/-- `factor * arr` on a rank-3 array. -/
def scalarMul3 (c : ℚ) (a : Arr3) : Arr3 :=
  { a with data := fun s i j => c * a.data s i j }

/-- `data.reshape(data.shape[0], -1)` on a rank-3 array. -/
def reshape3to2 (a : Arr3) : Arr2 :=
  ⟨a.n1, a.n2 * a.n3, fun s p => a.data s (p / a.n3) (p % a.n3)⟩

/-- The values of one output block, `power_spectrum.py` lines 246-251:
`factor * np.matmul(block_1.values.swapaxes(1, 2), block_2.values)`
flattened to a single property axis.  In `compute` the scalar is the
float `factor = 1 / sqrt(2 * ell + 1)`; it is carried here as an exact
rational parameter. -/
def psPairValues (factor : ℚ) (b1 b2 : TBlock) : Arr2 :=
  reshape3to2 (scalarMul3 factor (matmulB (swapaxes12 b1.values) b2.values))

/-- One output block of the matched-pair loop of
`PowerSpectrum.compute`. -/
structure PsBlock where
  samples : List (List ℤ)
  properties : List (List ℤ)
  values : Arr2

/-- The output block built for one matched `(l, species_center)` block
pair (gradients aside), `power_spectrum.py` lines 234-255. -/
def psPairBlock (factor : ℚ) (b1 b2 : TBlock) : PsBlock :=
  ⟨b1.samples, psPairProperties b1.properties b2.properties,
    psPairValues factor b1 b2⟩

/-- The `NotImplementedError` raise site of `PowerSpectrum.compute`. -/
inductive ComputeError where
  | notImplementedGradient : ComputeError
deriving DecidableEq, Repr

/-- The matched-pair loop of `PowerSpectrum.compute` lines 220-262: for
every key of the first expansion, pair its block with every block of the
second expansion under the same `(l, species_center)` key, using
`factorOf l` for the float `1 / sqrt(2 * l + 1)`. -/
def psAssemble (se1 se2 : List ((ℤ × ℤ) × TBlock)) (factorOf : ℤ → ℚ) :
    List ((ℤ × ℤ) × PsBlock) :=
  se1.flatMap (fun kb1 =>
    (se2.filter (fun kb2 => kb2.1 = kb1.1)).map (fun kb2 =>
      (kb1.1, psPairBlock (factorOf kb1.1.1) kb1.2 kb2.2)))

/-- The state stored by `PowerSpectrum.__init__`. -/
structure PS where
  calculator_1 : CalcInfo
  calculator_2 : Option CalcInfo

/-- `PowerSpectrum.compute`, calculator-facing skeleton: validate the
requested gradients, obtain each calculator's spherical expansion from
the oracle `calcCompute` (the native calculator is an external
collaborator), alias the first expansion when `calculator_2 is None`,
and run the matched-pair loop.  No configuration comparison happens
here. -/
def psCompute (ps : PS) (gradients : List String)
    (calcCompute : CalcInfo → List ((ℤ × ℤ) × TBlock))
    (factorOf : ℤ → ℚ) : Except ComputeError (List ((ℤ × ℤ) × PsBlock)) :=
  if gradients.all (fun p => p = "positions") then
    let se1 := calcCompute ps.calculator_1
    let se2 :=
      match ps.calculator_2 with
      | none => se1
      | some c => calcCompute c
    .ok (psAssemble se1 se2 factorOf)
  else .error .notImplementedGradient

/-- `getD` through `map`, for in-range indices. -/
theorem list_getD_map {α β : Type} (f : α → β) (l : List α) (i : ℕ)
    (dα : α) (dβ : β) (hi : i < l.length) :
    (l.map f).getD i dβ = f (l.getD i dα) := by
  induction l generalizing i with
  | nil => cases hi
  | cons a tl ih =>
      cases i with
      | zero => rfl
      | succ i => exact ih i (by simpa using hi)

/-- `getD` into the left part of an append. -/
theorem list_getD_append_left {α : Type} (l1 l2 : List α) (i : ℕ) (d : α)
    (hi : i < l1.length) :
    (l1 ++ l2).getD i d = l1.getD i d := by
  induction l1 generalizing i with
  | nil => cases hi
  | cons a tl ih =>
      cases i with
      | zero => rfl
      | succ i => exact ih i (by simpa using hi)

/-- `getD` into the right part of an append. -/
theorem list_getD_append_right {α : Type} (l1 l2 : List α) (i : ℕ)
    (d : α) :
    (l1 ++ l2).getD (l1.length + i) d = l2.getD i d := by
  induction l1 with
  | nil => simp
  | cons a tl ih => simpa [Nat.succ_add] using ih

/-- The Cartesian product property list has `len1 * len2` rows. -/
theorem psPairProperties_length (ps1 ps2 : List (List ℤ)) :
    (psPairProperties ps1 ps2).length = ps1.length * ps2.length := by
  induction ps1 with
  | nil => simp [psPairProperties]
  | cons p tl ih =>
      simp only [psPairProperties, List.flatMap_cons, List.length_append,
        List.length_map, List.length_cons] at ih ⊢
      rw [ih]
      ring

/-- Row `i * len2 + j` of the Cartesian product property list is the
concatenation of row `i` of the first factor and row `j` of the
second. -/
theorem psPairProperties_getD (ps1 ps2 : List (List ℤ)) (i j : ℕ)
    (hi : i < ps1.length) (hj : j < ps2.length) :
    (psPairProperties ps1 ps2).getD (i * ps2.length + j) [] =
      ps1.getD i [] ++ ps2.getD j [] := by
  induction ps1 generalizing i with
  | nil => cases hi
  | cons p tl ih =>
      cases i with
      | zero =>
          simp only [psPairProperties, List.flatMap_cons, Nat.zero_mul,
            Nat.zero_add]
          rw [list_getD_append_left _ _ j []
            (by rw [List.length_map]; exact hj)]
          rw [list_getD_map _ _ j [] [] hj]
          rfl
      | succ i =>
          have hidx : (i + 1) * ps2.length + j =
              (ps2.map (fun p2 => p ++ p2)).length + (i * ps2.length + j) := by
            rw [List.length_map]
            ring
          simp only [psPairProperties, List.flatMap_cons]
          rw [hidx, list_getD_append_right]
          exact ih i (by simpa using hi)

/-- C9: for every matched block pair, the output property label list is
exactly the row-major Cartesian product of the two input property lists
(`properties_1` outer, `properties_2` inner), each output row being the
concatenation of a `block_1` property row and a `block_2` property
row. -/
theorem claim_C9_cartesian_product_properties (factor : ℚ)
    (b1 b2 : TBlock) :
    (psPairBlock factor b1 b2).properties.length =
        b1.properties.length * b2.properties.length ∧
    ∀ i j, i < b1.properties.length → j < b2.properties.length →
      (psPairBlock factor b1 b2).properties.getD
          (i * b2.properties.length + j) [] =
        b1.properties.getD i [] ++ b2.properties.getD j [] := by
  refine ⟨psPairProperties_length _ _, fun i j hi hj => ?_⟩
  exact psPairProperties_getD _ _ i j hi hj

/-- C9 witness: two concrete property lists with 2 and 2 rows. -/
theorem claim_C9_cartesian_product_properties_witness :
    (psPairBlock 1 ⟨[], [[1, 0], [1, 1]], ⟨0, 0, 0, fun _ _ _ => 0⟩⟩
        ⟨[], [[2, 0], [2, 5]], ⟨0, 0, 0, fun _ _ _ => 0⟩⟩).properties.length
        = 2 * 2 ∧
    (psPairBlock 1 ⟨[], [[1, 0], [1, 1]], ⟨0, 0, 0, fun _ _ _ => 0⟩⟩
        ⟨[], [[2, 0], [2, 5]], ⟨0, 0, 0, fun _ _ _ => 0⟩⟩).properties.getD
          (1 * 2 + 1) [] = [1, 1] ++ [2, 5] :=
  ⟨(claim_C9_cartesian_product_properties 1
      ⟨[], [[1, 0], [1, 1]], ⟨0, 0, 0, fun _ _ _ => 0⟩⟩
      ⟨[], [[2, 0], [2, 5]], ⟨0, 0, 0, fun _ _ _ => 0⟩⟩).1,
    (claim_C9_cartesian_product_properties 1
      ⟨[], [[1, 0], [1, 1]], ⟨0, 0, 0, fun _ _ _ => 0⟩⟩
      ⟨[], [[2, 0], [2, 5]], ⟨0, 0, 0, fun _ _ _ => 0⟩⟩).2 1 1
      (by decide) (by decide)⟩

/-- C4: for every matched block pair, entry `(s, a * p2 + b)` of the
output values equals `factor` times the contraction over the shared
component axis, `sum over m of arr_1[s, m, a] * arr_2[s, m, b]` — the
embedding of `factor * np.matmul(block_1.values.swapaxes(1, 2),
block_2.values)` reshaped to one flat property axis (`compute`
instantiates `factor` at the float `1 / sqrt(2 * l + 1)`). -/
theorem claim_C4_invariant_contraction (factor : ℚ) (b1 b2 : TBlock)
    (n L p1 p2 : ℕ)
    (hb1 : shape3 b1.values = (n, L, p1))
    (hb2 : shape3 b2.values = (n, L, p2)) :
    (psPairValues factor b1 b2).n1 = n ∧
    (psPairValues factor b1 b2).n2 = p1 * p2 ∧
    ∀ s a b, a < p1 → b < p2 →
      (psPairValues factor b1 b2).data s (a * p2 + b) =
        factor * ∑ m ∈ Finset.range L,
          b1.values.data s m a * b2.values.data s m b := by
  simp only [shape3, Prod.mk.injEq] at hb1 hb2
  obtain ⟨e11, e12, e13⟩ := hb1
  obtain ⟨e21, e22, e23⟩ := hb2
  refine ⟨?_, ?_, ?_⟩
  · simp [psPairValues, reshape3to2, scalarMul3, matmulB, swapaxes12, e11]
  · simp [psPairValues, reshape3to2, scalarMul3, matmulB, swapaxes12, e13,
      e23]
  · intro s a b ha hb
    have hp2 : 0 < p2 := by omega
    have hdiv : (a * p2 + b) / p2 = a := by
      rw [Nat.mul_comm, Nat.mul_add_div hp2, Nat.div_eq_of_lt hb,
        Nat.add_zero]
    have hmod : (a * p2 + b) % p2 = b := by
      rw [Nat.mul_comm, Nat.mul_add_mod, Nat.mod_eq_of_lt hb]
    simp only [psPairValues, reshape3to2, scalarMul3, matmulB, swapaxes12,
      e12, e23, hdiv, hmod]

/-- C4 witness: one sample, `L = 1`, one property on each side, checked
at entry `(0, 0)`. -/
theorem claim_C4_invariant_contraction_witness :
    (psPairValues 1 ⟨[], [], ⟨1, 1, 1, fun _ _ _ => 3⟩⟩
        ⟨[], [], ⟨1, 1, 1, fun _ _ _ => 5⟩⟩).n1 = 1 ∧
    (psPairValues 1 ⟨[], [], ⟨1, 1, 1, fun _ _ _ => 3⟩⟩
        ⟨[], [], ⟨1, 1, 1, fun _ _ _ => 5⟩⟩).n2 = 1 * 1 ∧
    ∀ s a b, a < 1 → b < 1 →
      (psPairValues 1 ⟨[], [], ⟨1, 1, 1, fun _ _ _ => 3⟩⟩
          ⟨[], [], ⟨1, 1, 1, fun _ _ _ => 5⟩⟩).data s (a * 1 + b) =
        1 * ∑ _m ∈ Finset.range 1, (3 : ℚ) * 5 :=
  claim_C4_invariant_contraction 1 ⟨[], [], ⟨1, 1, 1, fun _ _ _ => 3⟩⟩
    ⟨[], [], ⟨1, 1, 1, fun _ _ _ => 5⟩⟩ 1 1 1 1 rfl rfl

/-- C8: two supported calculators with different `max_angular` make
`PowerSpectrum.__init__` raise the configuration-mismatch `ValueError`;
and `compute` performs no such check — its result is unchanged when the
calculators are swapped for ones returning the same expansions, and it
succeeds for every calculator pair (mismatched `max_angular` included)
whenever the gradient request is valid. -/
theorem claim_C8_config_mismatch_checked_at_init :
    (∀ c1 c2 : CalcInfo, c1.c_name ∈ supported_calculators →
        c2.c_name ∈ supported_calculators →
        c1.max_angular ≠ c2.max_angular →
        powerSpectrum_init c1 (some c2) = .error .maxAngularMismatch) ∧
    (∀ (c1 c2 c1' c2' : CalcInfo) (grads : List String)
        (calcCompute : CalcInfo → List ((ℤ × ℤ) × TBlock))
        (factorOf : ℤ → ℚ),
        calcCompute c1 = calcCompute c1' → calcCompute c2 = calcCompute c2' →
        psCompute ⟨c1, some c2⟩ grads calcCompute factorOf =
          psCompute ⟨c1', some c2'⟩ grads calcCompute factorOf) ∧
    (∀ (c1 c2 : CalcInfo) (grads : List String)
        (calcCompute : CalcInfo → List ((ℤ × ℤ) × TBlock))
        (factorOf : ℤ → ℚ),
        grads.all (fun p => p = "positions") = true →
        (psCompute ⟨c1, some c2⟩ grads calcCompute factorOf).isOk = true) := by
  refine ⟨?_, ?_, ?_⟩
  · intro c1 c2 h1 h2 hne
    unfold powerSpectrum_init
    simp only [if_pos h1, if_pos h2, if_pos hne]
  · intro c1 c2 c1' c2' grads calcCompute factorOf h1 h2
    unfold psCompute
    dsimp only
    rw [h1, h2]
  · intro c1 c2 grads calcCompute factorOf hg
    unfold psCompute
    rw [if_pos hg]
    rfl

/-- C8 witness: two supported calculators with `max_angular` 1 and 2. -/
theorem claim_C8_config_mismatch_checked_at_init_witness :
    powerSpectrum_init ⟨"spherical_expansion", 1⟩
        (some ⟨"lode_spherical_expansion", 2⟩) = .error .maxAngularMismatch ∧
    (psCompute ⟨⟨"spherical_expansion", 1⟩,
        some ⟨"lode_spherical_expansion", 2⟩⟩ ["positions"] (fun _ => [])
        (fun _ => 1)).isOk = true :=
  ⟨claim_C8_config_mismatch_checked_at_init.1 ⟨"spherical_expansion", 1⟩
      ⟨"lode_spherical_expansion", 2⟩ (by decide) (by decide) (by decide),
    claim_C8_config_mismatch_checked_at_init.2.2 ⟨"spherical_expansion", 1⟩
      ⟨"lode_spherical_expansion", 2⟩ ["positions"] (fun _ => [])
      (fun _ => 1) (by decide)⟩

/-- A "positions" gradient sub-block of a spherical-expansion block: its
own sample labels (columns `["sample", "structure", "atom"]`, the
`"sample"` back-reference in column 0) and a values array of shape
`(n_grad_samples, 3, 2*l+1, n_properties)`. -/
structure Gradient where
  samples : List (List ℤ)
  values : Arr4

/-- The integer `"sample"` column of a gradient's sample labels, as used
for fancy indexing (`gradient.samples["sample"]`). -/
def sampleColumn (g : Gradient) : List ℕ :=
  g.samples.map (fun row => (row.getD 0 0).toNat)

/-- Modelled from the spec: `Labels.union_and_mapping` of the equistore
collaborator is not part of the embedded sources.  Per spec §4.3 the
union keeps the rows of the first label set in order, followed by the
rows of the second set not already present, in order. -/
def sampleUnion (s1 s2 : List (List ℤ)) : List (List ℤ) :=
  s1 ++ s2.filter (fun r => decide (r ∉ s1))

/-- Position of the first occurrence of a row in a label list
(`List.findIdx`). -/
def idxIn (u : List (List ℤ)) (r : List ℤ) : ℕ :=
  u.findIdx (fun x => decide (x = r))

/-- Modelled from the spec (§4.3): the union label set together with the
two back-mapping index arrays sending each input row to its position in
the union. -/
def union_and_mapping (s1 s2 : List (List ℤ)) :
    List (List ℤ) × List ℕ × List ℕ :=
  let u := sampleUnion s1 s2
  (u, s1.map (idxIn u), s2.map (idxIn u))

/-- First position of a value in an index list. -/
def firstIdxOf : List ℕ → ℕ → Option ℕ
  | [], _ => none
  | a :: tl, r => if a = r then some 0 else (firstIdxOf tl r).map (· + 1)

/-- Numpy fancy-indexed accumulation `base[idx] += t` on a rank-3 array
(gather-add-scatter; for the injective index arrays produced by
`union_and_mapping` this adds `t[i]` to row `idx[i]`). -/
def scatterAdd3 (base : Arr3) (idx : List ℕ) (t : Arr3) : Arr3 :=
  { base with
    data := fun r c p =>
      match firstIdxOf idx r with
      | some i => base.data r c p + t.data i c p
      | none => base.data r c p }

/-- `arr.swapaxes(2, 3)` on a rank-4 array. -/
def swapaxes23 (a : Arr4) : Arr4 :=
  ⟨a.n1, a.n2, a.n4, a.n3, fun i c x y => a.data i c y x⟩

/-- `values[idxs, np.newaxis]`: gather rows of a rank-3 array by an index
list and insert a broadcastable length-1 axis. -/
def gatherNewaxis (v : Arr3) (idxs : List ℕ) : Arr4 :=
  ⟨idxs.length, 1, v.n2, v.n3, fun i _ m p => v.data (idxs.getD i 0) m p⟩

/-- Batched `np.matmul` on rank-4 arrays, broadcasting axis 1 (used with
one operand of axis-1 length 1). -/
def matmul4 (a b : Arr4) : Arr4 :=
  ⟨a.n1, max a.n2 b.n2, a.n3, b.n4,
    fun i c x y => ∑ k ∈ Finset.range a.n4,
      a.data i (bidx a.n2 c) x k * b.data i (bidx b.n2 c) k y⟩

/-- `factor * arr` on a rank-4 array. -/
def scalarMul4 (c : ℚ) (a : Arr4) : Arr4 :=
  { a with data := fun i x y z => c * a.data i x y z }

/-- `arr.reshape(n, 3, -1)` on a rank-4 array (flattening the last two
axes row-major). -/
def reshape4to3 (a : Arr4) : Arr3 :=
  ⟨a.n1, a.n2, a.n3 * a.n4, fun i c P => a.data i c (P / a.n4) (P % a.n4)⟩

/-- The output "positions" gradient sub-block built by
`_positions_gradients`. -/
structure PsGradient where
  samples : List (List ℤ)
  values : Arr3

/-- `_positions_gradients`, `power_spectrum.py` lines 272-321: if either
input gradient has no samples, attach an empty gradient (empty labels,
`np.array([]).reshape(0, 1, len(properties))`); otherwise build the
sample union with its back-mappings, zero-initialize, and accumulate the
two product-rule terms at their mapped row positions.
`n_out_props = len(new_block.properties)`. -/
def positions_gradients (block_1 block_2 : TBlock) (g1 g2 : Gradient)
    (factor : ℚ) (n_out_props : ℕ) : PsGradient :=
  if g1.samples.length = 0 ∨ g2.samples.length = 0 then
    ⟨[], ⟨0, 1, n_out_props, fun _ _ _ => 0⟩⟩
  else
    let um := union_and_mapping g1.samples g2.samples
    let gradients_samples := um.1
    let grad1_sample_idxs := um.2.1
    let grad2_sample_idxs := um.2.2
    let base := zeros3 gradients_samples.length 3 n_out_props
    let gradient_1_values := scalarMul4 factor
      (matmul4 (swapaxes23 g1.values)
        (gatherNewaxis block_2.values (sampleColumn g1)))
    let acc1 := scatterAdd3 base grad1_sample_idxs
      (reshape4to3 gradient_1_values)
    let gradient_values_2 := scalarMul4 factor
      (matmul4 (swapaxes23 (gatherNewaxis block_1.values (sampleColumn g2)))
        g2.values)
    let acc2 := scatterAdd3 acc1 grad2_sample_idxs
      (reshape4to3 gradient_values_2)
    ⟨gradients_samples, acc2⟩

/-- `getD` of an in-range index is a member. -/
theorem list_getD_mem {α : Type} (l : List α) (i : ℕ) (d : α)
    (hi : i < l.length) : l.getD i d ∈ l := by
  induction l generalizing i with
  | nil => cases hi
  | cons a tl ih =>
      cases i with
      | zero => exact List.mem_cons_self a tl
      | succ i => exact List.mem_cons_of_mem _ (ih i (by simpa using hi))

/-- In a duplicate-free list, equal in-range `getD` values force equal
indices. -/
theorem nodup_getD_inj (l : List ℕ) (hnd : l.Nodup) {i j : ℕ}
    (hi : i < l.length) (hj : j < l.length)
    (h : l.getD i 0 = l.getD j 0) : i = j := by
  induction l generalizing i j with
  | nil => cases hi
  | cons a tl ih =>
      rw [List.nodup_cons] at hnd
      cases i with
      | zero =>
          cases j with
          | zero => rfl
          | succ j =>
              have h' : a = tl.getD j 0 := h
              exact absurd
                (show a ∈ tl by
                  rw [h']
                  exact list_getD_mem tl j 0 (by simpa using hj)) hnd.1
      | succ i =>
          cases j with
          | zero =>
              have h' : tl.getD i 0 = a := h
              exact absurd
                (show a ∈ tl by
                  rw [← h']
                  exact list_getD_mem tl i 0 (by simpa using hi)) hnd.1
          | succ j =>
              exact congrArg Nat.succ
                (ih hnd.2 (by simpa using hi) (by simpa using hj) h)

/-- `firstIdxOf` misses exactly the absent values. -/
theorem firstIdxOf_eq_none_iff (idx : List ℕ) (r : ℕ) :
    firstIdxOf idx r = none ↔ r ∉ idx := by
  induction idx with
  | nil => simp [firstIdxOf]
  | cons a tl ih =>
      by_cases ha : a = r
      · simp [firstIdxOf, ha]
      · simp only [firstIdxOf, if_neg ha, Option.map_eq_none', ih,
          List.mem_cons, not_or]
        constructor
        · intro h2
          exact ⟨fun hra => ha hra.symm, h2⟩
        · intro h2
          exact h2.2

/-- A hit of `firstIdxOf` is an in-range position holding the value. -/
theorem firstIdxOf_eq_some (idx : List ℕ) (r i : ℕ)
    (h : firstIdxOf idx r = some i) :
    i < idx.length ∧ idx.getD i 0 = r := by
  induction idx generalizing i with
  | nil => cases h
  | cons a tl ih =>
      by_cases ha : a = r
      · rw [firstIdxOf, if_pos ha] at h
        cases h
        exact ⟨Nat.succ_pos _, ha⟩
      · rw [firstIdxOf, if_neg ha] at h
        cases hft : firstIdxOf tl r with
        | none => rw [hft] at h; cases h
        | some j =>
            rw [hft] at h
            simp only [Option.map_some, Option.map_some'] at h
            cases h
            obtain ⟨hj, hg⟩ := ih j hft
            exact ⟨Nat.succ_lt_succ hj, hg⟩

/-- Entry formula of the fancy-indexed accumulation `base[idx] += t` for
a duplicate-free index array: each row receives the term of its unique
preimage. -/
theorem scatterAdd3_data (base : Arr3) (idx : List ℕ) (t : Arr3)
    (hnd : idx.Nodup) (r c p : ℕ) :
    (scatterAdd3 base idx t).data r c p =
      base.data r c p +
        ∑ i ∈ Finset.range idx.length,
          if idx.getD i 0 = r then t.data i c p else 0 := by
  cases hfi : firstIdxOf idx r with
  | none =>
      have hnm : r ∉ idx := (firstIdxOf_eq_none_iff idx r).mp hfi
      have hz : ∀ i ∈ Finset.range idx.length,
          (if idx.getD i 0 = r then t.data i c p else 0) = 0 := by
        intro i hi
        rw [if_neg]
        intro he
        exact hnm (he ▸ list_getD_mem idx i 0 (Finset.mem_range.mp hi))
      rw [Finset.sum_congr rfl hz, Finset.sum_const_zero, add_zero]
      simp [scatterAdd3, hfi]
  | some i =>
      obtain ⟨hlt, hgd⟩ := firstIdxOf_eq_some idx r i hfi
      have hsum : (∑ j ∈ Finset.range idx.length,
          if idx.getD j 0 = r then t.data j c p else 0) = t.data i c p := by
        rw [Finset.sum_eq_single i]
        · rw [if_pos hgd]
        · intro j hj hne
          rw [if_neg]
          intro he
          exact hne (nodup_getD_inj idx hnd (Finset.mem_range.mp hj) hlt
            (he.trans hgd.symm))
        · intro habs
          exact absurd (Finset.mem_range.mpr hlt) habs
      rw [hsum]
      simp [scatterAdd3, hfi]

/-- Rows of the first label set belong to the union. -/
theorem mem_sampleUnion_left {s1 s2 : List (List ℤ)} {r : List ℤ}
    (h : r ∈ s1) : r ∈ sampleUnion s1 s2 :=
  List.mem_append_left _ h

/-- Rows of the second label set belong to the union. -/
theorem mem_sampleUnion_right {s1 s2 : List (List ℤ)} {r : List ℤ}
    (h : r ∈ s2) : r ∈ sampleUnion s1 s2 := by
  by_cases h1 : r ∈ s1
  · exact List.mem_append_left _ h1
  · exact List.mem_append_right _ (List.mem_filter.mpr ⟨h, by simpa using h1⟩)

/-- `idxIn` of a member is an in-range position of the union holding the
row itself. -/
theorem getD_idxIn (u : List (List ℤ)) (r : List ℤ) (h : r ∈ u) :
    u.getD (idxIn u r) [] = r ∧ idxIn u r < u.length := by
  induction u with
  | nil => cases h
  | cons a tl ih =>
      by_cases ha : a = r
      · simp [idxIn, List.findIdx_cons, ha]
      · have htl : r ∈ tl := by
          rcases List.mem_cons.mp h with hr | hr
          · exact absurd hr.symm ha
          · exact hr
        obtain ⟨ih1, ih2⟩ := ih htl
        have hstep : idxIn (a :: tl) r = idxIn tl r + 1 := by
          simp [idxIn, List.findIdx_cons, ha]
        constructor
        · rw [hstep]
          exact ih1
        · rw [hstep, List.length_cons]
          exact Nat.succ_lt_succ ih2

/-- Back-mapping index arrays produced over duplicate-free label sets
contained in the union are duplicate-free. -/
theorem map_idxIn_nodup (u s : List (List ℤ)) (hnd : s.Nodup)
    (hsub : ∀ r ∈ s, r ∈ u) : (s.map (idxIn u)).Nodup := by
  refine List.Nodup.map_on ?_ hnd
  intro x hx y hy hxy
  have h1 := (getD_idxIn u x (hsub x hx)).1
  have h2 := (getD_idxIn u y (hsub y hy)).1
  rw [← h1, ← h2, hxy]

/-- Entry formula of the first product-rule term
`factor * np.matmul(gradient_1.values.swapaxes(2, 3),
block_2.values[gradient_1.samples["sample"], np.newaxis])` after its
`reshape(n, 3, -1)`. -/
theorem term1_data (b2 : TBlock) (g1 : Gradient) (factor : ℚ)
    (hg1c : g1.values.n2 = 3) (i c P : ℕ)
    (hi : i < g1.samples.length) :
    (reshape4to3 (scalarMul4 factor
        (matmul4 (swapaxes23 g1.values)
          (gatherNewaxis b2.values (sampleColumn g1))))).data i c P =
      factor * ∑ m ∈ Finset.range g1.values.n3,
        g1.values.data i c m (P / b2.values.n3) *
          b2.values.data ((g1.samples.getD i []).getD 0 0).toNat m
            (P % b2.values.n3) := by
  simp only [reshape4to3, scalarMul4, matmul4, swapaxes23, gatherNewaxis,
    sampleColumn, hg1c]
  rw [list_getD_map (fun row => (row.getD 0 0).toNat) g1.samples i [] 0 hi]
  rw [show bidx 3 c = c from rfl]

/-- Entry formula of the second product-rule term
`factor * np.matmul(block_1.values[gradient_2.samples["sample"],
np.newaxis].swapaxes(2, 3), gradient_2.values)` after its
`reshape(n, 3, -1)`. -/
theorem term2_data (b1 : TBlock) (g2 : Gradient) (factor : ℚ)
    (hg2c : g2.values.n2 = 3) (j c P : ℕ)
    (hj : j < g2.samples.length) :
    (reshape4to3 (scalarMul4 factor
        (matmul4 (swapaxes23 (gatherNewaxis b1.values (sampleColumn g2)))
          g2.values))).data j c P =
      factor * ∑ m ∈ Finset.range b1.values.n2,
        b1.values.data ((g2.samples.getD j []).getD 0 0).toNat m
            (P / g2.values.n4) *
          g2.values.data j c m (P % g2.values.n4) := by
  simp only [reshape4to3, scalarMul4, matmul4, swapaxes23, gatherNewaxis,
    sampleColumn, hg2c]
  rw [list_getD_map (fun row => (row.getD 0 0).toNat) g2.samples j [] 0 hj]
  rw [show bidx 3 c = c from rfl]

/-- C2: when both input blocks carry a "positions" gradient with
non-empty sample sets, the output "positions" gradient is built over the
union of the two gradients' sample sets; it is zero-initialized and, at
every row, receives the first product-rule term
`factor * d(arr_1)/dx · arr_2` from the `grad_1` sample back-mapped to
that row and the second term `factor * arr_1 · d(arr_2)/dx` from the
`grad_2` sample back-mapped to that row (the gradients' `"sample"`
column indexing the partner block's values).  The back-mapping index
arrays land each input row on itself inside the union. -/
theorem claim_C2_positions_gradient_product_rule
    (b1 b2 : TBlock) (g1 g2 : Gradient) (factor : ℚ) (nprops : ℕ)
    (h1ne : g1.samples ≠ []) (h2ne : g2.samples ≠ [])
    (hnd1 : g1.samples.Nodup) (hnd2 : g2.samples.Nodup)
    (hg1c : g1.values.n2 = 3) (hg2c : g2.values.n2 = 3) :
    (positions_gradients b1 b2 g1 g2 factor nprops).samples =
        sampleUnion g1.samples g2.samples ∧
    (positions_gradients b1 b2 g1 g2 factor nprops).values.n1 =
        (sampleUnion g1.samples g2.samples).length ∧
    (positions_gradients b1 b2 g1 g2 factor nprops).values.n2 = 3 ∧
    (positions_gradients b1 b2 g1 g2 factor nprops).values.n3 = nprops ∧
    (∀ i, i < g1.samples.length →
      (sampleUnion g1.samples g2.samples).getD
          (idxIn (sampleUnion g1.samples g2.samples)
            (g1.samples.getD i [])) [] = g1.samples.getD i []) ∧
    (∀ j, j < g2.samples.length →
      (sampleUnion g1.samples g2.samples).getD
          (idxIn (sampleUnion g1.samples g2.samples)
            (g2.samples.getD j [])) [] = g2.samples.getD j []) ∧
    ∀ r c P,
      (positions_gradients b1 b2 g1 g2 factor nprops).values.data r c P =
        (∑ i ∈ Finset.range g1.samples.length,
          if idxIn (sampleUnion g1.samples g2.samples)
              (g1.samples.getD i []) = r then
            factor * ∑ m ∈ Finset.range g1.values.n3,
              g1.values.data i c m (P / b2.values.n3) *
                b2.values.data ((g1.samples.getD i []).getD 0 0).toNat m
                  (P % b2.values.n3)
          else 0) +
        (∑ j ∈ Finset.range g2.samples.length,
          if idxIn (sampleUnion g1.samples g2.samples)
              (g2.samples.getD j []) = r then
            factor * ∑ m ∈ Finset.range b1.values.n2,
              b1.values.data ((g2.samples.getD j []).getD 0 0).toNat m
                  (P / g2.values.n4) *
                g2.values.data j c m (P % g2.values.n4)
          else 0) := by
  have hcond : ¬(g1.samples.length = 0 ∨ g2.samples.length = 0) := by
    intro hor
    rcases hor with h | h
    · exact h1ne (List.length_eq_zero.mp h)
    · exact h2ne (List.length_eq_zero.mp h)
  have hps : positions_gradients b1 b2 g1 g2 factor nprops =
      ⟨sampleUnion g1.samples g2.samples,
        scatterAdd3
          (scatterAdd3
            (zeros3 (sampleUnion g1.samples g2.samples).length 3 nprops)
            (g1.samples.map (idxIn (sampleUnion g1.samples g2.samples)))
            (reshape4to3 (scalarMul4 factor
              (matmul4 (swapaxes23 g1.values)
                (gatherNewaxis b2.values (sampleColumn g1))))))
          (g2.samples.map (idxIn (sampleUnion g1.samples g2.samples)))
          (reshape4to3 (scalarMul4 factor
            (matmul4 (swapaxes23 (gatherNewaxis b1.values (sampleColumn g2)))
              g2.values)))⟩ := by
    unfold positions_gradients
    rw [if_neg hcond]
    rfl
  rw [hps]
  refine ⟨rfl, rfl, rfl, rfl, ?_, ?_, ?_⟩
  · intro i hi
    exact (getD_idxIn _ _ (mem_sampleUnion_left (list_getD_mem _ i [] hi))).1
  · intro j hj
    exact (getD_idxIn _ _
      (mem_sampleUnion_right (list_getD_mem _ j [] hj))).1
  · intro r c P
    have hnd1x := map_idxIn_nodup (sampleUnion g1.samples g2.samples)
      g1.samples hnd1 (fun x hx => mem_sampleUnion_left hx)
    have hnd2x := map_idxIn_nodup (sampleUnion g1.samples g2.samples)
      g2.samples hnd2 (fun x hx => mem_sampleUnion_right hx)
    rw [scatterAdd3_data _ _ _ hnd2x, scatterAdd3_data _ _ _ hnd1x]
    rw [show (zeros3 (sampleUnion g1.samples g2.samples).length 3
        nprops).data r c P = 0 from rfl, zero_add]
    congr 1
    · rw [List.length_map]
      refine Finset.sum_congr rfl fun i hi => ?_
      have hi' := Finset.mem_range.mp hi
      rw [list_getD_map (idxIn (sampleUnion g1.samples g2.samples))
        g1.samples i [] 0 hi']
      rw [term1_data b2 g1 factor hg1c i c P hi']
    · rw [List.length_map]
      refine Finset.sum_congr rfl fun j hj => ?_
      have hj' := Finset.mem_range.mp hj
      rw [list_getD_map (idxIn (sampleUnion g1.samples g2.samples))
        g2.samples j [] 0 hj']
      rw [term2_data b1 g2 factor hg2c j c P hj']

/-- Concrete first block for the gradient witnesses. -/
def b1w : TBlock := ⟨[[0, 0]], [[1]], ⟨1, 1, 1, fun _ _ _ => 3⟩⟩

/-- Concrete second block for the gradient witnesses. -/
def b2w : TBlock := ⟨[[0, 0]], [[2]], ⟨1, 1, 1, fun _ _ _ => 5⟩⟩

/-- Concrete non-empty first gradient. -/
def g1w : Gradient := ⟨[[0, 0, 0]], ⟨1, 3, 1, 1, fun _ _ _ _ => 7⟩⟩

/-- Concrete non-empty second gradient. -/
def g2w : Gradient := ⟨[[0, 0, 1]], ⟨1, 3, 1, 1, fun _ _ _ _ => 11⟩⟩

/-- C2 witness: the product-rule theorem applied to one-sample concrete
blocks and gradients. -/
theorem claim_C2_positions_gradient_product_rule_witness :
    (g1w.samples ≠ [] ∧ g2w.samples ≠ [] ∧ g1w.samples.Nodup ∧
      g2w.samples.Nodup ∧ g1w.values.n2 = 3 ∧ g2w.values.n2 = 3) ∧
    (positions_gradients b1w b2w g1w g2w 1 1).samples =
      sampleUnion g1w.samples g2w.samples :=
  ⟨⟨by decide, by decide, by decide, by decide, rfl, rfl⟩,
    (claim_C2_positions_gradient_product_rule b1w b2w g1w g2w 1 1
      (by decide) (by decide) (by decide) (by decide) rfl rfl).1⟩

/-- Concrete zero-sample gradient for C3. -/
def g2empty : Gradient := ⟨[], ⟨0, 3, 1, 1, fun _ _ _ _ => 0⟩⟩

/-- C3 counterexample: with `gradient_1` holding one sample and
`gradient_2` holding none, the code attaches an *empty* output gradient:
its sample set is empty — not the non-empty side's sample set — and no
term is accumulated (zero rows of values). -/
theorem claim_C3_counterexample :
    g1w.samples.length = 1 ∧ g2empty.samples.length = 0 ∧
    (positions_gradients b1w b2w g1w g2empty 1 1).samples ≠ g1w.samples ∧
    (positions_gradients b1w b2w g1w g2empty 1 1).samples = [] ∧
    (positions_gradients b1w b2w g1w g2empty 1 1).values.n1 = 0 := by
  refine ⟨rfl, rfl, ?_, ?_, rfl⟩
  · intro h
    have : ([] : List (List ℤ)) = [[0, 0, 0]] := h
    cases this
  · rfl

/-- C3 (amended): whenever either of the two "positions" gradients has
zero samples, `_positions_gradients` attaches an empty output gradient —
empty sample labels and a values array of shape
`(0, 1, len(properties))` — so the non-empty side's term is *not*
accumulated and the union is never formed. -/
theorem claim_C3_amended (b1 b2 : TBlock) (g1 g2 : Gradient)
    (factor : ℚ) (nprops : ℕ)
    (h : g1.samples.length = 0 ∨ g2.samples.length = 0) :
    (positions_gradients b1 b2 g1 g2 factor nprops).samples = [] ∧
    (positions_gradients b1 b2 g1 g2 factor nprops).values.n1 = 0 ∧
    (positions_gradients b1 b2 g1 g2 factor nprops).values.n2 = 1 ∧
    (positions_gradients b1 b2 g1 g2 factor nprops).values.n3 = nprops := by
  unfold positions_gradients
  rw [if_pos h]
  exact ⟨rfl, rfl, rfl, rfl⟩

/-- C3 witness: the amended degenerate behavior at the concrete
one-sample / zero-sample pair. -/
theorem claim_C3_amended_witness :
    (g1w.samples.length = 0 ∨ g2empty.samples.length = 0) ∧
    (positions_gradients b1w b2w g1w g2empty 1 1).samples = [] ∧
    (positions_gradients b1w b2w g1w g2empty 1 1).values.n1 = 0 ∧
    (positions_gradients b1w b2w g1w g2empty 1 1).values.n2 = 1 ∧
    (positions_gradients b1w b2w g1w g2empty 1 1).values.n3 = 1 :=
  ⟨Or.inr rfl, claim_C3_amended b1w b2w g1w g2empty 1 1 (Or.inr rfl)⟩
